import Mathlib

/-!
Shallow embedding of the `tx_fun` transaction engine.

The Rust sources embedded here:
  * `src/client.rs` — per-client account state machine (`Client`, `Deposit`,
    `DepositState`, and the five operations `deposit`, `withdraw`, `dispute`,
    `resolve`, `chargeback`);
  * `src/tx.rs` — transaction records and routing to a client map;
  * `src/engine.rs` — the row-processing loop that drops failing records;
  * `src/amount.rs` — amount conversions (the default-build decimal
    implementation is absent from the sources; it is modelled from the spec
    where needed).

Modelling conventions: Rust `u64` balances become `Nat` (`u64` is
non-negative by type; no scenario relevant to the claims overflows);
monetary amounts arriving at an operation are `Int` values in minor units
(1/10000ths), so that the negativity check of `Amount::to_u64` is
representable; `anyhow` failures become a `TxError` enumeration, one
constructor per distinct `bail!`/`ensure!` site; `HashMap` becomes an
association list whose `insert` replaces the first matching key (and appends
otherwise) and whose lookup takes the first match. Every operation returns
the pair of its `Result` and the post-call state, so that mutation performed
before an early return stays observable.
-/

namespace TxFun

/-- From `client.rs`: `enum DepositState { Ok, Disputed, ChargedBack }`. -/
inductive DepositState where
  | Ok
  | Disputed
  | ChargedBack
deriving DecidableEq, Repr

/-- From `client.rs`: `struct Deposit { amount: u64, state: DepositState }`. -/
structure Deposit where
  amount : Nat
  state : DepositState
deriving DecidableEq, Repr

/-- The error cases of the engine, one constructor per distinct failure site
in the Rust sources (`anyhow` messages mapped to an enumeration):
`negativeAmount` is `Amount::to_u64`'s "Negative amount", `accountLocked` is
`ensure_unlocked`'s failure, `insufficientFunds` the two "Not enough funds"
`ensure!` sites, `depositNotFound` the "Deposit not found" lookups,
`invalidDepositState` is `Deposit::ensure_state`'s "Deposit in state A != B"
(carrying actual and required state), and `accountNotFound` is `tx.rs`'s
"Account not found". -/
inductive TxError where
  | negativeAmount
  | accountLocked
  | insufficientFunds
  | depositNotFound
  | invalidDepositState (actual required : DepositState)
  | accountNotFound
deriving DecidableEq, Repr

/-- From `client.rs`: `Deposit::ensure_state` — `bail!` when the deposit's
state differs from the required one. -/
def Deposit.ensure_state (d : Deposit) (s : DepositState) : Except TxError Unit :=
  if d.state = s then Except.ok () else Except.error (TxError.invalidDepositState d.state s)

/-- Lookup in the deposits map (`HashMap::get`): first entry with the key. -/
def findDep : List (Nat × Deposit) → Nat → Option Deposit
  | [], _ => none
  | (k, d) :: rest, tx => if k = tx then some d else findDep rest tx

/-- `HashMap::insert` on the deposits map: replace the first entry carrying
the key, append when absent. Also models the write-back of a `get_mut`
borrow, which coincides with `insert` when the key is present. -/
def insertDep : List (Nat × Deposit) → Nat → Deposit → List (Nat × Deposit)
  | [], tx, d => [(tx, d)]
  | (k, d0) :: rest, tx, d =>
      if k = tx then (tx, d) :: rest else (k, d0) :: insertDep rest tx d

/-- From `client.rs`: `struct Client` — the three balances, the lock flag and
the deposits map (client_id kept for error messages / output). -/
structure Client where
  client_id : Nat
  available : Nat
  held : Nat
  total : Nat
  locked : Bool
  deposits : List (Nat × Deposit)
deriving DecidableEq, Repr

/-- From `client.rs`: `Client::create` — zero balances, unlocked, no deposits. -/
def Client.create (client_id : Nat) : Client :=
  { client_id := client_id, available := 0, held := 0, total := 0,
    locked := false, deposits := [] }

/-- From `amount.rs`: `Amount::to_u64` — fails on a negative amount,
otherwise yields the exact minor-unit value. The argument is already in
minor units (`Int` so that the negative case is representable). -/
def toU64 (a : Int) : Except TxError Nat :=
  if a < 0 then Except.error TxError.negativeAmount else Except.ok a.toNat

/-- From `client.rs`: `Client::ensure_unlocked`. -/
def Client.ensure_unlocked (c : Client) : Except TxError Unit :=
  if c.locked then Except.error TxError.accountLocked else Except.ok ()

/-- From `client.rs`: `Client::deposit` — convert the amount (may fail),
insert a fresh `Deposit` in state `Ok` under `tx_id` (overwriting any prior
record for that id), then raise `available` and `total`. -/
def Client.deposit (c : Client) (tx_id : Nat) (amount : Int) :
    Except TxError Unit × Client :=
  match toU64 amount with
  | Except.error e => (Except.error e, c)
  | Except.ok a =>
      let c := { c with deposits := insertDep c.deposits tx_id ⟨a, DepositState.Ok⟩ }
      let c := { c with available := c.available + a }
      let c := { c with total := c.total + a }
      (Except.ok (), c)

/-- From `client.rs`: `Client::withdraw` — convert the amount (the negativity
check runs first), then require the account unlocked, then require
`available >= amount`; on success lower `available` and `total`. -/
def Client.withdraw (c : Client) (amount : Int) : Except TxError Unit × Client :=
  match toU64 amount with
  | Except.error e => (Except.error e, c)
  | Except.ok a =>
      match c.ensure_unlocked with
      | Except.error e => (Except.error e, c)
      | Except.ok _ =>
          if c.available ≥ a then
            (Except.ok (), { c with available := c.available - a, total := c.total - a })
          else (Except.error TxError.insufficientFunds, c)

/-- From `client.rs`: `Client::dispute` — look the deposit up (else
"Deposit not found"), require state `Ok`, require `available >= amount`;
on success move the amount from `available` to `held` and mark the deposit
`Disputed`. Not blocked by the account lock. -/
def Client.dispute (c : Client) (tx_id : Nat) : Except TxError Unit × Client :=
  match findDep c.deposits tx_id with
  | none => (Except.error TxError.depositNotFound, c)
  | some d =>
      match d.ensure_state DepositState.Ok with
      | Except.error e => (Except.error e, c)
      | Except.ok _ =>
          if c.available ≥ d.amount then
            (Except.ok (),
              { c with available := c.available - d.amount,
                       held := c.held + d.amount,
                       deposits := insertDep c.deposits tx_id ⟨d.amount, DepositState.Disputed⟩ })
          else (Except.error TxError.insufficientFunds, c)

/-- From `client.rs`: `Client::resolve` — look the deposit up, require state
`Disputed`; on success move the amount from `held` back to `available` and
mark the deposit `Ok`. The `held` subtraction is unguarded in the source. -/
def Client.resolve (c : Client) (tx_id : Nat) : Except TxError Unit × Client :=
  match findDep c.deposits tx_id with
  | none => (Except.error TxError.depositNotFound, c)
  | some d =>
      match d.ensure_state DepositState.Disputed with
      | Except.error e => (Except.error e, c)
      | Except.ok _ =>
          (Except.ok (),
            { c with available := c.available + d.amount,
                     held := c.held - d.amount,
                     deposits := insertDep c.deposits tx_id ⟨d.amount, DepositState.Ok⟩ })

/-- From `client.rs`: `Client::chargeback` — require the account unlocked,
look the deposit up, require state `Disputed`, require `total >= amount`;
on success lower `total` and `held`, mark the deposit `ChargedBack` and lock
the account. The `held` subtraction is unguarded in the source. -/
def Client.chargeback (c : Client) (tx_id : Nat) : Except TxError Unit × Client :=
  match c.ensure_unlocked with
  | Except.error e => (Except.error e, c)
  | Except.ok _ =>
      match findDep c.deposits tx_id with
      | none => (Except.error TxError.depositNotFound, c)
      | some d =>
          match d.ensure_state DepositState.Disputed with
          | Except.error e => (Except.error e, c)
          | Except.ok _ =>
              if c.total ≥ d.amount then
                (Except.ok (),
                  { c with total := c.total - d.amount,
                           held := c.held - d.amount,
                           deposits := insertDep c.deposits tx_id ⟨d.amount, DepositState.ChargedBack⟩,
                           locked := true })
              else (Except.error TxError.insufficientFunds, c)

/-- One client-level request, covering the five operations of `client.rs`. -/
inductive Op where
  | deposit (tx_id : Nat) (amount : Int)
  | withdraw (amount : Int)
  | dispute (tx_id : Nat)
  | resolve (tx_id : Nat)
  | chargeback (tx_id : Nat)
deriving DecidableEq, Repr

/-- Dispatch one request to the matching `Client` operation. -/
def Client.apply (c : Client) (op : Op) : Except TxError Unit × Client :=
  match op with
  | Op.deposit tx_id amount => c.deposit tx_id amount
  | Op.withdraw amount => c.withdraw amount
  | Op.dispute tx_id => c.dispute tx_id
  | Op.resolve tx_id => c.resolve tx_id
  | Op.chargeback tx_id => c.chargeback tx_id

/-- Fold a request list over a client, keeping the post-state of every call,
successful or failed — the state evolution of one account over a run. -/
def Client.applyAll (c : Client) (ops : List Op) : Client :=
  ops.foldl (fun c op => (c.apply op).2) c

/-- The account states reachable from the initial zero state by any finite
request sequence, counting the post-state of failed calls as well. -/
inductive Reachable : Client → Prop where
  | create (client_id : Nat) : Reachable (Client.create client_id)
  | step (c : Client) (op : Op) : Reachable c → Reachable (c.apply op).2

/-- Contribution of one deposit record to the disputed total: its amount when
it is currently `Disputed`, zero otherwise. -/
def disputedPart (d : Deposit) : Nat :=
  if d.state = DepositState.Disputed then d.amount else 0

/-- Sum of the amounts of all deposit records currently in state `Disputed`. -/
def sumDisputed : List (Nat × Deposit) → Nat
  | [] => 0
  | (_, d) :: rest => disputedPart d + sumDisputed rest

/-- From `tx.rs`: the tagged transaction type; `Deposit` and `Withdrawal`
carry an amount (in minor units, possibly negative before validation). -/
inductive TxType where
  | deposit (amount : Int)
  | withdrawal (amount : Int)
  | dispute
  | resolve
  | chargeback
deriving DecidableEq, Repr

/-- From `tx.rs`: one parsed transaction record. -/
structure Tx where
  tx_type : TxType
  client_id : Nat
  tx_id : Nat
deriving DecidableEq, Repr

/-- Lookup in the clients map (`HashMap::get_mut`): first entry with the key. -/
def findClient : List (Nat × Client) → Nat → Option Client
  | [], _ => none
  | (k, c) :: rest, id => if k = id then some c else findClient rest id

/-- `HashMap::insert` on the clients map; also models write-back through a
mutable borrow (coincides with `insert` when the key is present). -/
def insertClient : List (Nat × Client) → Nat → Client → List (Nat × Client)
  | [], id, c => [(id, c)]
  | (k, c0) :: rest, id, c =>
      if k = id then (id, c) :: rest else (k, c0) :: insertClient rest id c

/-- From `tx.rs`: `Tx::process` — for a deposit, `entry().or_insert` creates
the account before the operation runs (so the creation persists even when
the deposit itself then fails); for any other type, a missing account fails
with "Account not found". The chosen operation's result and the written-back
client map are returned. -/
def Tx.process (t : Tx) (clients : List (Nat × Client)) :
    Except TxError Unit × List (Nat × Client) :=
  match t.tx_type with
  | TxType.deposit amount =>
      let clients :=
        match findClient clients t.client_id with
        | some _ => clients
        | none => insertClient clients t.client_id (Client.create t.client_id)
      match findClient clients t.client_id with
      | none => (Except.error TxError.accountNotFound, clients)
      | some c =>
          let r := c.deposit t.tx_id amount
          (r.1, insertClient clients t.client_id r.2)
  | _ =>
      match findClient clients t.client_id with
      | none => (Except.error TxError.accountNotFound, clients)
      | some c =>
          let r :=
            match t.tx_type with
            | TxType.deposit amount => c.deposit t.tx_id amount
            | TxType.withdrawal amount => c.withdraw amount
            | TxType.dispute => c.dispute t.tx_id
            | TxType.resolve => c.resolve t.tx_id
            | TxType.chargeback => c.chargeback t.tx_id
          (r.1, insertClient clients t.client_id r.2)

/-- One input row as the engine sees it after CSV decoding: `none` is a
malformed row (`csv::Result` error), `some t` a decoded record. -/
abbrev Row := Option Tx

/-- From `engine.rs`: `process_row` composed with the loop body of
`process_file` — a malformed row is skipped, a decoded record is applied and
its error (if any) discarded; the resulting client map is kept either way. -/
def processRow (clients : List (Nat × Client)) (row : Row) : List (Nat × Client) :=
  match row with
  | none => clients
  | some t => (t.process clients).2

/-- From `engine.rs`: `process_file`'s loop — fold all rows in input order,
never aborting on a per-record failure. -/
def processRows (clients : List (Nat × Client)) (rows : List Row) :
    List (Nat × Client) :=
  rows.foldl processRow clients

example :
    (((Client.create 0).deposit 1 31400).2.dispute 1).2
      = { client_id := 0, available := 0, held := 31400, total := 31400,
          locked := false, deposits := [(1, ⟨31400, DepositState.Disputed⟩)] } := by
  decide

example : ((Client.create 0).withdraw 5).1 = Except.error TxError.insufficientFunds := rfl

/-! ### Association-list lemmas -/

theorem findDep_insertDep_self (l : List (Nat × Deposit)) (tx : Nat) (d : Deposit) :
    findDep (insertDep l tx d) tx = some d := by
  induction l with
  | nil => simp [insertDep, findDep]
  | cons hd tl ih =>
      obtain ⟨k, d0⟩ := hd
      by_cases hk : k = tx
      · simp [insertDep, hk, findDep]
      · simp [insertDep, hk, findDep, ih]

theorem findDep_insertDep_ne (l : List (Nat × Deposit)) (tx k : Nat) (d : Deposit)
    (h : k ≠ tx) : findDep (insertDep l tx d) k = findDep l k := by
  induction l with
  | nil => simp [insertDep, findDep, Ne.symm h]
  | cons hd tl ih =>
      obtain ⟨k0, d0⟩ := hd
      by_cases hk : k0 = tx
      · subst hk
        simp [insertDep, findDep, Ne.symm h]
      · by_cases hk' : k0 = k
        · simp [insertDep, findDep, hk, hk', h]
        · simp [insertDep, findDep, hk, hk', ih]

theorem sumDisputed_insertDep (l : List (Nat × Deposit)) (tx : Nat) (d d' : Deposit)
    (h : findDep l tx = some d) :
    sumDisputed (insertDep l tx d') + disputedPart d
      = sumDisputed l + disputedPart d' := by
  induction l with
  | nil => simp [findDep] at h
  | cons hd tl ih =>
      obtain ⟨k, d0⟩ := hd
      by_cases hk : k = tx
      · simp [findDep, hk] at h
        subst h
        simp [insertDep, hk, sumDisputed]
        omega
      · simp [findDep, hk] at h
        simp only [insertDep, if_neg hk, sumDisputed]
        have := ih h
        omega

theorem sumDisputed_insertDep_ok (l : List (Nat × Deposit)) (tx : Nat) (a : Nat) :
    sumDisputed (insertDep l tx ⟨a, DepositState.Ok⟩) ≤ sumDisputed l := by
  induction l with
  | nil => simp [insertDep, sumDisputed, disputedPart]
  | cons hd tl ih =>
      obtain ⟨k, d0⟩ := hd
      by_cases hk : k = tx
      · simp only [insertDep, if_pos hk, sumDisputed]
        simp [disputedPart]
      · simp only [insertDep, if_neg hk, sumDisputed]
        omega

theorem findDep_disputed_le_sum (l : List (Nat × Deposit)) (tx : Nat) (d : Deposit)
    (h : findDep l tx = some d) (hs : d.state = DepositState.Disputed) :
    d.amount ≤ sumDisputed l := by
  induction l with
  | nil => simp [findDep] at h
  | cons hd tl ih =>
      obtain ⟨k, d0⟩ := hd
      by_cases hk : k = tx
      · simp only [findDep, if_pos hk, Option.some.injEq] at h
        subst h
        simp [sumDisputed, disputedPart, hs]
      · simp only [findDep, if_neg hk] at h
        have := ih h
        simp only [sumDisputed]
        omega

/-! ### The per-account inductive invariant -/

/-- The inductive invariant of one account: the balance equation of the spec
together with the link between `held` and the currently disputed deposits. -/
def Inv (c : Client) : Prop :=
  c.total = c.available + c.held ∧ sumDisputed c.deposits ≤ c.held

theorem inv_create (client_id : Nat) : Inv (Client.create client_id) := by
  constructor <;> simp [Client.create, sumDisputed]

theorem inv_apply (c : Client) (op : Op) (h : Inv c) : Inv (c.apply op).2 := by
  obtain ⟨hbal, hsum⟩ := h
  cases op with
  | deposit tx_id amount =>
      simp only [Client.apply, Client.deposit]
      cases ha : toU64 amount with
      | error e => exact ⟨hbal, hsum⟩
      | ok a =>
          refine ⟨by simp; omega, ?_⟩
          simpa using le_trans (sumDisputed_insertDep_ok c.deposits tx_id a) hsum
  | withdraw amount =>
      simp only [Client.apply, Client.withdraw]
      cases ha : toU64 amount with
      | error e => exact ⟨hbal, hsum⟩
      | ok a =>
          cases hu : c.ensure_unlocked with
          | error e => exact ⟨hbal, hsum⟩
          | ok u =>
              by_cases hav : c.available ≥ a
              · simp only [if_pos hav]
                exact ⟨by simp; omega, by simpa using hsum⟩
              · simp only [if_neg hav]
                exact ⟨hbal, hsum⟩
  | dispute tx_id =>
      simp only [Client.apply, Client.dispute]
      cases hf : findDep c.deposits tx_id with
      | none => exact ⟨hbal, hsum⟩
      | some d =>
          simp only [Deposit.ensure_state]
          by_cases hs : d.state = DepositState.Ok
          · simp only [if_pos hs]
            by_cases hav : c.available ≥ d.amount
            · simp only [if_pos hav]
              have hkey := sumDisputed_insertDep c.deposits tx_id d
                ⟨d.amount, DepositState.Disputed⟩ hf
              simp [disputedPart, hs] at hkey
              exact ⟨by simp; omega, by simp; omega⟩
            · simp only [if_neg hav]
              exact ⟨hbal, hsum⟩
          · simp only [if_neg hs]
            exact ⟨hbal, hsum⟩
  | resolve tx_id =>
      simp only [Client.apply, Client.resolve]
      cases hf : findDep c.deposits tx_id with
      | none => exact ⟨hbal, hsum⟩
      | some d =>
          simp only [Deposit.ensure_state]
          by_cases hs : d.state = DepositState.Disputed
          · simp only [if_pos hs]
            have hkey := sumDisputed_insertDep c.deposits tx_id d
              ⟨d.amount, DepositState.Ok⟩ hf
            simp [disputedPart, hs] at hkey
            exact ⟨by simp; omega, by simp; omega⟩
          · simp only [if_neg hs]
            exact ⟨hbal, hsum⟩
  | chargeback tx_id =>
      simp only [Client.apply, Client.chargeback]
      cases hu : c.ensure_unlocked with
      | error e => exact ⟨hbal, hsum⟩
      | ok u =>
          cases hf : findDep c.deposits tx_id with
          | none => exact ⟨hbal, hsum⟩
          | some d =>
              simp only [Deposit.ensure_state]
              by_cases hs : d.state = DepositState.Disputed
              · simp only [if_pos hs]
                by_cases ht : c.total ≥ d.amount
                · simp only [if_pos ht]
                  have hkey := sumDisputed_insertDep c.deposits tx_id d
                    ⟨d.amount, DepositState.ChargedBack⟩ hf
                  simp [disputedPart, hs] at hkey
                  exact ⟨by simp; omega, by simp; omega⟩
                · simp only [if_neg ht]
                  exact ⟨hbal, hsum⟩
              · simp only [if_neg hs]
                exact ⟨hbal, hsum⟩

theorem reachable_inv (c : Client) (h : Reachable c) : Inv c := by
  induction h with
  | create client_id => exact inv_create client_id
  | step c op _ ih => exact inv_apply c op ih

/-- Shared helper: every failing client operation returns the account state
it was given — each of the five operations validates before mutating. -/
theorem apply_error_state (c : Client) (op : Op) (e : TxError)
    (h : (c.apply op).1 = Except.error e) : (c.apply op).2 = c := by
  cases op with
  | deposit tx_id amount =>
      simp only [Client.apply, Client.deposit] at h ⊢
      cases ha : toU64 amount with
      | error e2 => simp [ha]
      | ok a => simp [ha] at h
  | withdraw amount =>
      simp only [Client.apply, Client.withdraw] at h ⊢
      cases ha : toU64 amount with
      | error e2 => simp [ha]
      | ok a =>
          cases hu : c.ensure_unlocked with
          | error e2 => simp [ha, hu]
          | ok u =>
              by_cases hav : c.available ≥ a
              · simp [ha, hu, hav] at h
              · simp [ha, hu, hav]
  | dispute tx_id =>
      simp only [Client.apply, Client.dispute] at h ⊢
      cases hf : findDep c.deposits tx_id with
      | none => simp [hf]
      | some d =>
          simp only [hf, Deposit.ensure_state] at h ⊢
          by_cases hs : d.state = DepositState.Ok
          · by_cases hav : c.available ≥ d.amount
            · simp [hs, hav] at h
            · simp [hs, hav]
          · simp [hs]
  | resolve tx_id =>
      simp only [Client.apply, Client.resolve] at h ⊢
      cases hf : findDep c.deposits tx_id with
      | none => simp [hf]
      | some d =>
          simp only [hf, Deposit.ensure_state] at h ⊢
          by_cases hs : d.state = DepositState.Disputed
          · simp [hs] at h
          · simp [hs]
  | chargeback tx_id =>
      simp only [Client.apply, Client.chargeback] at h ⊢
      cases hu : c.ensure_unlocked with
      | error e2 => simp [hu]
      | ok u =>
          cases hf : findDep c.deposits tx_id with
          | none => simp [hu, hf]
          | some d =>
              simp only [hu, hf, Deposit.ensure_state] at h ⊢
              by_cases hs : d.state = DepositState.Disputed
              · by_cases ht : c.total ≥ d.amount
                · simp [hs, ht] at h
                · simp [hs, ht]
              · simp [hs]

/-- A sample reachable account: client 7 deposits 3.1400 under tx 1 and then
disputes it. -/
def exDisputed : Client :=
  (((Client.create 7).apply (Op.deposit 1 31400)).2.apply (Op.dispute 1)).2

theorem exDisputed_reachable : Reachable exDisputed :=
  Reachable.step _ _ (Reachable.step _ _ (Reachable.create 7))

/-! ### Claims -/

/-- C1: for every account and every finite sequence of the five operations
applied from the initial zero state, after each operation (successful or
failed) the account satisfies `total = available + held`, `available ≥ 0`
and `held ≥ 0` (non-negativity holds by the `Nat` embedding of `u64`). -/
theorem C1_reachable_balance_invariant (c : Client) (h : Reachable c) :
    c.total = c.available + c.held ∧ 0 ≤ c.available ∧ 0 ≤ c.held :=
  ⟨(reachable_inv c h).1, Nat.zero_le _, Nat.zero_le _⟩

theorem C1_witness :
    exDisputed.total = exDisputed.available + exDisputed.held
      ∧ 0 ≤ exDisputed.available ∧ 0 ≤ exDisputed.held :=
  C1_reachable_balance_invariant exDisputed
    (Reachable.step _ _ (Reachable.step _ _ (Reachable.create 7)))

/-- C2: whenever one of the five operations fails on any account state, the
post-call account state (balances, lock flag and deposit map alike) is
exactly the pre-call state — no partial mutation is observable. -/
theorem C2_failed_op_is_noop (c : Client) (op : Op) (e : TxError)
    (h : (c.apply op).1 = Except.error e) : (c.apply op).2 = c :=
  apply_error_state c op e h

/-- A sample account holding one undisputed deposit of 3.1400 under tx 1. -/
def exNormal : Client := ((Client.create 0).deposit 1 31400).2

/-- A sample locked account: deposits of 3.1400 (tx 1) and 1.0000 (tx 2),
then dispute and chargeback of tx 1. Left with `available = total = 10000`,
`held = 0`, locked, tx 1 `ChargedBack` and tx 2 still `Ok`. -/
def exLocked : Client :=
  Client.applyAll (Client.create 0)
    [Op.deposit 1 31400, Op.deposit 2 10000, Op.dispute 1, Op.chargeback 1]

/-- C5: the full case analysis of `dispute(tx_id)` — `DepositNotFound` when
the id is absent, `InvalidDepositState` when the record is not `Ok`
(Normal), `InsufficientFunds` when `available < amount`, and otherwise
success moving the amount from `available` to `held` (leaving `total`
unchanged) and marking the deposit `Disputed`. -/
theorem C5_dispute_spec (c : Client) (tx_id : Nat) :
    (findDep c.deposits tx_id = none →
        c.dispute tx_id = (Except.error TxError.depositNotFound, c))
  ∧ (∀ d, findDep c.deposits tx_id = some d → d.state ≠ DepositState.Ok →
        c.dispute tx_id
          = (Except.error (TxError.invalidDepositState d.state DepositState.Ok), c))
  ∧ (∀ d, findDep c.deposits tx_id = some d → d.state = DepositState.Ok →
        c.available < d.amount →
        c.dispute tx_id = (Except.error TxError.insufficientFunds, c))
  ∧ (∀ d, findDep c.deposits tx_id = some d → d.state = DepositState.Ok →
        d.amount ≤ c.available →
        c.dispute tx_id = (Except.ok (),
          { c with available := c.available - d.amount,
                   held := c.held + d.amount,
                   deposits := insertDep c.deposits tx_id ⟨d.amount, DepositState.Disputed⟩ })
          ∧ (c.dispute tx_id).2.total = c.total) := by
  refine ⟨?_, ?_, ?_, ?_⟩
  · intro hf
    simp [Client.dispute, hf]
  · intro d hf hs
    simp [Client.dispute, hf, Deposit.ensure_state, hs]
  · intro d hf hs hav
    have hn : ¬ c.available ≥ d.amount := by omega
    simp [Client.dispute, hf, Deposit.ensure_state, hs, hn]
  · intro d hf hs hav
    have hp : c.available ≥ d.amount := hav
    simp [Client.dispute, hf, Deposit.ensure_state, hs, hp]

theorem C5_witness :
    exNormal.dispute 1 = (Except.ok (),
      { exNormal with available := exNormal.available - 31400,
                      held := exNormal.held + 31400,
                      deposits := insertDep exNormal.deposits 1
                        ⟨31400, DepositState.Disputed⟩ })
      ∧ (exNormal.dispute 1).2.total = exNormal.total :=
  (C5_dispute_spec exNormal 1).2.2.2 ⟨31400, DepositState.Ok⟩ rfl rfl (by decide)

/-- C6 counterexample: on a locked account, a withdrawal of a negative
amount does not fail with `AccountLocked` (the claim's first case) but with
`NegativeAmount` — `Amount::to_u64` runs before `ensure_unlocked` in
`Client::withdraw`. -/
theorem C6_counterexample :
    exLocked.locked = true
      ∧ (exLocked.withdraw (-1)).1 = Except.error TxError.negativeAmount
      ∧ (exLocked.withdraw (-1)).1 ≠ Except.error TxError.accountLocked :=
  ⟨rfl, rfl, fun h => absurd (Except.error.inj h) (by decide)⟩

/-- C6 (amended): `withdraw(amount)` fails with `NegativeAmount` if the
amount is negative (this check runs first), else with `AccountLocked` if the
account is locked, else with `InsufficientFunds` if `available < amount`,
and otherwise succeeds lowering `available` and `total` by the amount while
leaving `held` and `locked` unchanged. -/
theorem C6_withdraw_spec (c : Client) (a : Int) :
    (a < 0 → c.withdraw a = (Except.error TxError.negativeAmount, c))
  ∧ (0 ≤ a → c.locked = true →
      c.withdraw a = (Except.error TxError.accountLocked, c))
  ∧ (0 ≤ a → c.locked = false → c.available < a.toNat →
      c.withdraw a = (Except.error TxError.insufficientFunds, c))
  ∧ (0 ≤ a → c.locked = false → a.toNat ≤ c.available →
      c.withdraw a = (Except.ok (),
        { c with available := c.available - a.toNat, total := c.total - a.toNat })
      ∧ (c.withdraw a).2.held = c.held ∧ (c.withdraw a).2.locked = c.locked) := by
  refine ⟨?_, ?_, ?_, ?_⟩
  · intro hneg
    simp [Client.withdraw, toU64, hneg]
  · intro hpos hlock
    simp [Client.withdraw, toU64, Client.ensure_unlocked, hlock, Int.not_lt.mpr hpos]
  · intro hpos hlock hav
    have hn : ¬ c.available ≥ a.toNat := by omega
    simp [Client.withdraw, toU64, Client.ensure_unlocked, hlock, Int.not_lt.mpr hpos, hn]
  · intro hpos hlock hav
    have hp : c.available ≥ a.toNat := hav
    simp [Client.withdraw, toU64, Client.ensure_unlocked, hlock, Int.not_lt.mpr hpos, hp]

theorem C6_witness :
    exNormal.withdraw 10000 = (Except.ok (),
      { exNormal with available := exNormal.available - (10000 : Int).toNat,
                      total := exNormal.total - (10000 : Int).toNat })
      ∧ (exNormal.withdraw 10000).2.held = exNormal.held
      ∧ (exNormal.withdraw 10000).2.locked = exNormal.locked :=
  (C6_withdraw_spec exNormal 10000).2.2.2 (by decide) rfl (by decide)

/-- C4 counterexample: on a locked account a withdraw call with a negative
amount fails, but with `NegativeAmount` rather than the `AccountLocked` the
claim requires of every withdraw call on a locked account. -/
theorem C4_counterexample :
    exLocked.locked = true
      ∧ (exLocked.withdraw (-10000)).1 = Except.error TxError.negativeAmount
      ∧ (exLocked.withdraw (-10000)).1 ≠ Except.error TxError.accountLocked :=
  ⟨rfl, rfl, fun h => absurd (Except.error.inj h) (by decide)⟩

/-- C4 (amended): on a locked account, every withdraw call with a
non-negative amount and every chargeback call fails with `AccountLocked`
(a negative-amount withdraw fails with `NegativeAmount` instead, since the
amount conversion runs first), while deposit, dispute and resolve succeed
whenever their other preconditions hold. -/
theorem C4_locked_effect (c : Client) (h : c.locked = true) :
    (∀ a : Int, 0 ≤ a → (c.withdraw a).1 = Except.error TxError.accountLocked)
  ∧ (∀ a : Int, a < 0 → (c.withdraw a).1 = Except.error TxError.negativeAmount)
  ∧ (∀ tx_id, (c.chargeback tx_id).1 = Except.error TxError.accountLocked)
  ∧ (∀ tx_id (a : Int), 0 ≤ a → (c.deposit tx_id a).1 = Except.ok ())
  ∧ (∀ tx_id d, findDep c.deposits tx_id = some d → d.state = DepositState.Ok →
      d.amount ≤ c.available → (c.dispute tx_id).1 = Except.ok ())
  ∧ (∀ tx_id d, findDep c.deposits tx_id = some d →
      d.state = DepositState.Disputed → (c.resolve tx_id).1 = Except.ok ()) := by
  refine ⟨?_, ?_, ?_, ?_, ?_, ?_⟩
  · intro a hpos
    simp [Client.withdraw, toU64, Client.ensure_unlocked, h, Int.not_lt.mpr hpos]
  · intro a hneg
    simp [Client.withdraw, toU64, hneg]
  · intro tx_id
    simp [Client.chargeback, Client.ensure_unlocked, h]
  · intro tx_id a hpos
    simp [Client.deposit, toU64, Int.not_lt.mpr hpos]
  · intro tx_id d hf hs hav
    have hp : c.available ≥ d.amount := hav
    simp [Client.dispute, hf, Deposit.ensure_state, hs, hp]
  · intro tx_id d hf hs
    simp [Client.resolve, hf, Deposit.ensure_state, hs]

theorem C4_witness :
    exLocked.locked = true
      ∧ (exLocked.chargeback 2).1 = Except.error TxError.accountLocked
      ∧ (exLocked.dispute 2).1 = Except.ok ()
      ∧ (exLocked.deposit 9 40000).1 = Except.ok () :=
  ⟨rfl, (C4_locked_effect exLocked rfl).2.2.1 2,
    (C4_locked_effect exLocked rfl).2.2.2.2.1 2 ⟨10000, DepositState.Ok⟩ rfl rfl
      (by decide),
    (C4_locked_effect exLocked rfl).2.2.2.1 9 40000 (by decide)⟩

theorem C2_witness :
    ((Client.create 0).apply (Op.withdraw 50000)).1
        = Except.error TxError.insufficientFunds
      ∧ ((Client.create 0).apply (Op.withdraw 50000)).2 = Client.create 0 :=
  ⟨rfl, C2_failed_op_is_noop (Client.create 0) (Op.withdraw 50000)
    TxError.insufficientFunds rfl⟩

/-- C7: in every reachable unlocked account state holding a deposit record in
state `Disputed`, that deposit's amount is at most `total`, so the
`InsufficientFunds`(total) branch of `chargeback` cannot be taken from a
reachable state. -/
theorem C7_chargeback_guard_unreachable (c : Client) (h : Reachable c)
    (hl : c.locked = false) (tx_id : Nat) (d : Deposit)
    (hf : findDep c.deposits tx_id = some d) (hs : d.state = DepositState.Disputed) :
    d.amount ≤ c.total
      ∧ (c.chargeback tx_id).1 ≠ Except.error TxError.insufficientFunds := by
  obtain ⟨hbal, hsum⟩ := reachable_inv c h
  have hle := findDep_disputed_le_sum c.deposits tx_id d hf hs
  have hta : d.amount ≤ c.total := by omega
  refine ⟨hta, ?_⟩
  have hp : c.total ≥ d.amount := hta
  simp [Client.chargeback, Client.ensure_unlocked, hl, hf, Deposit.ensure_state, hs, hp]

theorem C7_witness :
    (⟨31400, DepositState.Disputed⟩ : Deposit).amount ≤ exDisputed.total
      ∧ (exDisputed.chargeback 1).1 ≠ Except.error TxError.insufficientFunds :=
  C7_chargeback_guard_unreachable exDisputed exDisputed_reachable rfl 1
    ⟨31400, DepositState.Disputed⟩ rfl rfl

/-- C10: in every reachable account state, `held` is at least the sum of the
amounts of the deposit records currently in state `Disputed`; in particular
the amount of any single `Disputed` record is at most `held`, so the
unguarded `held` subtractions of `resolve` and `chargeback` never underflow. -/
theorem C10_held_covers_disputed (c : Client) (h : Reachable c) :
    sumDisputed c.deposits ≤ c.held
      ∧ (∀ tx_id d, findDep c.deposits tx_id = some d →
          d.state = DepositState.Disputed → d.amount ≤ c.held) := by
  have hinv := reachable_inv c h
  exact ⟨hinv.2, fun tx_id d hf hs =>
    le_trans (findDep_disputed_le_sum c.deposits tx_id d hf hs) hinv.2⟩

theorem C10_witness :
    sumDisputed exDisputed.deposits ≤ exDisputed.held
      ∧ (⟨31400, DepositState.Disputed⟩ : Deposit).amount ≤ exDisputed.held :=
  ⟨(C10_held_covers_disputed exDisputed exDisputed_reachable).1,
    (C10_held_covers_disputed exDisputed exDisputed_reachable).2 1
      ⟨31400, DepositState.Disputed⟩ rfl rfl⟩

/-- Does this request deposit under the given transaction id? A later deposit
reusing an id overwrites the stored record (`HashMap::insert`). -/
def Op.redeposits (op : Op) (tx_id : Nat) : Bool :=
  match op with
  | Op.deposit tx _ => tx == tx_id
  | _ => false

theorem applyAll_cons (c : Client) (op : Op) (rest : List Op) :
    c.applyAll (op :: rest) = ((c.apply op).2).applyAll rest := rfl

/-- Shared helper: a `ChargedBack` record survives any single request that is
not a deposit reusing its transaction id. -/
theorem chargedBack_after_apply (c : Client) (op : Op) (tx_id a : Nat)
    (hcb : findDep c.deposits tx_id = some ⟨a, DepositState.ChargedBack⟩)
    (hop : op.redeposits tx_id = false) :
    findDep ((c.apply op).2).deposits tx_id
      = some ⟨a, DepositState.ChargedBack⟩ := by
  cases op with
  | deposit tx amt =>
      have htx : tx_id ≠ tx := by
        intro hh
        simp [Op.redeposits, hh] at hop
      simp only [Client.apply, Client.deposit]
      cases ha : toU64 amt with
      | error e => simpa using hcb
      | ok a2 =>
          simpa [findDep_insertDep_ne _ _ _ _ htx] using hcb
  | withdraw amt =>
      simp only [Client.apply, Client.withdraw]
      cases ha : toU64 amt with
      | error e => simpa using hcb
      | ok a2 =>
          cases hu : c.ensure_unlocked with
          | error e => simpa using hcb
          | ok u =>
              by_cases hav : c.available ≥ a2
              · simpa [hav] using hcb
              · simpa [hav] using hcb
  | dispute tx =>
      by_cases htx : tx = tx_id
      · subst htx
        simp [Client.apply, Client.dispute, hcb, Deposit.ensure_state]
      · simp only [Client.apply, Client.dispute]
        cases hf : findDep c.deposits tx with
        | none => simpa using hcb
        | some d =>
            simp only [Deposit.ensure_state]
            by_cases hs : d.state = DepositState.Ok
            · by_cases hav : c.available ≥ d.amount
              · simpa [hs, hav, findDep_insertDep_ne _ _ _ _ (Ne.symm htx)] using hcb
              · simpa [hs, hav] using hcb
            · simpa [hs] using hcb
  | resolve tx =>
      by_cases htx : tx = tx_id
      · subst htx
        simp [Client.apply, Client.resolve, hcb, Deposit.ensure_state]
      · simp only [Client.apply, Client.resolve]
        cases hf : findDep c.deposits tx with
        | none => simpa using hcb
        | some d =>
            simp only [Deposit.ensure_state]
            by_cases hs : d.state = DepositState.Disputed
            · simpa [hs, findDep_insertDep_ne _ _ _ _ (Ne.symm htx)] using hcb
            · simpa [hs] using hcb
  | chargeback tx =>
      simp only [Client.apply, Client.chargeback]
      cases hu : c.ensure_unlocked with
      | error e => simpa using hcb
      | ok u =>
          by_cases htx : tx = tx_id
          · subst htx
            simp [hcb, Deposit.ensure_state]
          · cases hf : findDep c.deposits tx with
            | none => simpa using hcb
            | some d =>
                simp only [Deposit.ensure_state]
                by_cases hs : d.state = DepositState.Disputed
                · by_cases ht : c.total ≥ d.amount
                  · simpa [hs, ht, findDep_insertDep_ne _ _ _ _ (Ne.symm htx)] using hcb
                  · simpa [hs, ht] using hcb
                · simpa [hs] using hcb

/-- Shared helper: `chargedBack_after_apply` folded over a request list. -/
theorem chargedBack_after_applyAll (c : Client) (tx_id a : Nat) (ops : List Op)
    (hcb : findDep c.deposits tx_id = some ⟨a, DepositState.ChargedBack⟩)
    (hops : ∀ op ∈ ops, op.redeposits tx_id = false) :
    findDep (c.applyAll ops).deposits tx_id
      = some ⟨a, DepositState.ChargedBack⟩ := by
  induction ops generalizing c with
  | nil => simpa [Client.applyAll] using hcb
  | cons op rest ih =>
      rw [applyAll_cons]
      exact ih _ (chargedBack_after_apply c op tx_id a hcb
          (hops op (List.mem_cons_self op rest)))
        (fun o ho => hops o (List.mem_cons_of_mem _ ho))

/-- Shared helper: a successful chargeback leaves the record `ChargedBack`. -/
theorem chargeback_ok_marks (c : Client) (tx_id : Nat)
    (hok : (c.chargeback tx_id).1 = Except.ok ()) :
    ∃ a, findDep ((c.chargeback tx_id).2).deposits tx_id
      = some ⟨a, DepositState.ChargedBack⟩ := by
  simp only [Client.chargeback] at hok ⊢
  cases hu : c.ensure_unlocked with
  | error e => simp [hu] at hok
  | ok u =>
      cases hf : findDep c.deposits tx_id with
      | none => simp [hu, hf] at hok
      | some d =>
          simp only [hu, hf, Deposit.ensure_state] at hok ⊢
          by_cases hs : d.state = DepositState.Disputed
          · by_cases ht : c.total ≥ d.amount
            · exact ⟨d.amount, by simp [hs, ht, findDep_insertDep_self]⟩
            · simp [hs, ht] at hok
          · simp [hs] at hok

/-- C3 counterexample: after a successful chargeback of tx 1, a later deposit
reusing id 1 overwrites the charged-back record with a fresh `Ok` record
(`HashMap::insert`), and a subsequent dispute of tx 1 succeeds — `ChargedBack`
is not terminal for the transaction id when the id is reused. -/
theorem C3_counterexample :
    ((Client.applyAll (Client.create 0)
        [Op.deposit 1 31400, Op.dispute 1]).chargeback 1).1 = Except.ok ()
      ∧ (((((Client.applyAll (Client.create 0)
            [Op.deposit 1 31400, Op.dispute 1]).chargeback 1).2.deposit 1
              10000).2).dispute 1).1 = Except.ok () :=
  ⟨rfl, rfl⟩

/-- C3 (amended): once a chargeback of transaction id T succeeds, then as
long as no later deposit reuses id T, the record stays `ChargedBack` through
any sequence of further requests, and dispute or resolve referencing T fails
with `InvalidDepositState` at every later point. (A later deposit reusing
id T overwrites the record and lifts the restriction.) -/
theorem C3_chargeback_terminal_without_redeposit (c : Client) (tx_id : Nat)
    (hok : (c.chargeback tx_id).1 = Except.ok ()) (ops : List Op)
    (hops : ∀ op ∈ ops, op.redeposits tx_id = false) :
    ∃ a, findDep (((c.chargeback tx_id).2).applyAll ops).deposits tx_id
          = some ⟨a, DepositState.ChargedBack⟩
      ∧ ((((c.chargeback tx_id).2).applyAll ops).dispute tx_id).1
          = Except.error (TxError.invalidDepositState DepositState.ChargedBack
              DepositState.Ok)
      ∧ ((((c.chargeback tx_id).2).applyAll ops).resolve tx_id).1
          = Except.error (TxError.invalidDepositState DepositState.ChargedBack
              DepositState.Disputed) := by
  obtain ⟨a, hcb⟩ := chargeback_ok_marks c tx_id hok
  have hall := chargedBack_after_applyAll _ tx_id a ops hcb hops
  exact ⟨a, hall, by simp [Client.dispute, hall, Deposit.ensure_state],
    by simp [Client.resolve, hall, Deposit.ensure_state]⟩

theorem C3_witness :
    (∀ op ∈ [Op.deposit 5 99, Op.dispute 2, Op.withdraw 3, Op.resolve 2],
        op.redeposits 1 = false)
      ∧ ∃ a,
        findDep (((Client.applyAll (Client.create 0)
              [Op.deposit 1 31400, Op.deposit 2 10000,
                Op.dispute 1]).chargeback 1).2.applyAll
            [Op.deposit 5 99, Op.dispute 2, Op.withdraw 3, Op.resolve 2]).deposits 1
          = some ⟨a, DepositState.ChargedBack⟩
        ∧ ((((Client.applyAll (Client.create 0)
              [Op.deposit 1 31400, Op.deposit 2 10000,
                Op.dispute 1]).chargeback 1).2.applyAll
            [Op.deposit 5 99, Op.dispute 2, Op.withdraw 3, Op.resolve 2]).dispute 1).1
          = Except.error (TxError.invalidDepositState DepositState.ChargedBack
              DepositState.Ok)
        ∧ ((((Client.applyAll (Client.create 0)
              [Op.deposit 1 31400, Op.deposit 2 10000,
                Op.dispute 1]).chargeback 1).2.applyAll
            [Op.deposit 5 99, Op.dispute 2, Op.withdraw 3, Op.resolve 2]).resolve 1).1
          = Except.error (TxError.invalidDepositState DepositState.ChargedBack
              DepositState.Disputed) :=
  ⟨by decide,
    C3_chargeback_terminal_without_redeposit
      (Client.applyAll (Client.create 0)
        [Op.deposit 1 31400, Op.deposit 2 10000, Op.dispute 1]) 1 rfl
      [Op.deposit 5 99, Op.dispute 2, Op.withdraw 3, Op.resolve 2] (by decide)⟩

theorem findClient_insertClient_self (l : List (Nat × Client)) (id : Nat) (c : Client) :
    findClient (insertClient l id c) id = some c := by
  induction l with
  | nil => simp [insertClient, findClient]
  | cons hd tl ih =>
      obtain ⟨k, c0⟩ := hd
      by_cases hk : k = id
      · simp [insertClient, hk, findClient]
      · simp [insertClient, hk, findClient, ih]

theorem insertClient_findClient_eq (l : List (Nat × Client)) (id : Nat) (c : Client)
    (h : findClient l id = some c) : insertClient l id c = l := by
  induction l with
  | nil => simp [findClient] at h
  | cons hd tl ih =>
      obtain ⟨k, c0⟩ := hd
      by_cases hk : k = id
      · simp [findClient, hk] at h
        simp [insertClient, hk, h]
      · simp [findClient, hk] at h
        simp [insertClient, hk, ih h]

/-- C8 counterexample: a deposit record with a negative amount for a
previously unseen client fails (`NegativeAmount`), yet leaves the ledger
changed — `entry().or_insert` creates the zero-balance account before the
deposit itself is validated, and the fresh account persists. -/
theorem C8_counterexample :
    ((Tx.mk (TxType.deposit (-1)) 1 1).process []).1
        = Except.error TxError.negativeAmount
      ∧ ((Tx.mk (TxType.deposit (-1)) 1 1).process []).2 ≠ [] :=
  ⟨rfl, by decide⟩

/-- C8 (amended): when applying one record fails, the ledger is exactly as
before, except that a failing deposit naming a previously unseen client id
leaves behind that client's freshly created zero-balance unlocked account;
in every case the error is dropped and all subsequent records are still
processed from the resulting ledger. -/
theorem C8_failed_record_effect (clients : List (Nat × Client)) (t : Tx)
    (e : TxError) (rest : List Row)
    (h : (t.process clients).1 = Except.error e) :
    ((t.process clients).2 = clients
        ∨ ∃ a, t.tx_type = TxType.deposit a
            ∧ findClient clients t.client_id = none
            ∧ (t.process clients).2
                = insertClient clients t.client_id (Client.create t.client_id))
      ∧ processRows clients (some t :: rest) = processRows (t.process clients).2 rest
      ∧ processRows clients (none :: rest) = processRows clients rest := by
  refine ⟨?_, rfl, rfl⟩
  cases htt : t.tx_type with
  | deposit amount =>
      simp only [Tx.process, htt] at h ⊢
      cases hf : findClient clients t.client_id with
      | some c =>
          simp only [hf] at h ⊢
          cases ha : toU64 amount with
          | error e2 =>
              left
              simp only [Client.deposit, ha]
              exact insertClient_findClient_eq _ _ _ hf
          | ok a => simp [Client.deposit, ha] at h
      | none =>
          have hself := findClient_insertClient_self clients t.client_id
            (Client.create t.client_id)
          simp only [hf, hself] at h ⊢
          cases ha : toU64 amount with
          | error e2 =>
              right
              refine ⟨amount, rfl, trivial, ?_⟩
              simp only [Client.deposit, ha]
              exact insertClient_findClient_eq _ _ _ hself
          | ok a => simp [Client.deposit, ha] at h
  | withdrawal amount =>
      simp only [Tx.process, htt] at h ⊢
      cases hf : findClient clients t.client_id with
      | none => left; rfl
      | some c =>
          simp only [hf] at h ⊢
          left
          have h2 := apply_error_state c (Op.withdraw amount) e h
          rw [show (c.withdraw amount).2 = c from h2]
          exact insertClient_findClient_eq _ _ _ hf
  | dispute =>
      simp only [Tx.process, htt] at h ⊢
      cases hf : findClient clients t.client_id with
      | none => left; rfl
      | some c =>
          simp only [hf] at h ⊢
          left
          have h2 := apply_error_state c (Op.dispute t.tx_id) e h
          rw [show (c.dispute t.tx_id).2 = c from h2]
          exact insertClient_findClient_eq _ _ _ hf
  | resolve =>
      simp only [Tx.process, htt] at h ⊢
      cases hf : findClient clients t.client_id with
      | none => left; rfl
      | some c =>
          simp only [hf] at h ⊢
          left
          have h2 := apply_error_state c (Op.resolve t.tx_id) e h
          rw [show (c.resolve t.tx_id).2 = c from h2]
          exact insertClient_findClient_eq _ _ _ hf
  | chargeback =>
      simp only [Tx.process, htt] at h ⊢
      cases hf : findClient clients t.client_id with
      | none => left; rfl
      | some c =>
          simp only [hf] at h ⊢
          left
          have h2 := apply_error_state c (Op.chargeback t.tx_id) e h
          rw [show (c.chargeback t.tx_id).2 = c from h2]
          exact insertClient_findClient_eq _ _ _ hf

theorem C8_witness :
    (((Tx.mk (TxType.deposit (-1)) 1 1).process []).2 = []
        ∨ ∃ a, (Tx.mk (TxType.deposit (-1)) 1 1).tx_type = TxType.deposit a
            ∧ findClient [] 1 = none
            ∧ ((Tx.mk (TxType.deposit (-1)) 1 1).process []).2
                = insertClient [] 1 (Client.create 1))
      ∧ processRows [] (some (Tx.mk (TxType.deposit (-1)) 1 1)
            :: [some (Tx.mk (TxType.deposit 10000) 2 7)])
          = processRows ((Tx.mk (TxType.deposit (-1)) 1 1).process []).2
              [some (Tx.mk (TxType.deposit 10000) 2 7)]
      ∧ processRows [] (none :: [some (Tx.mk (TxType.deposit 10000) 2 7)])
          = processRows [] [some (Tx.mk (TxType.deposit 10000) 2 7)] :=
  C8_failed_record_effect [] (Tx.mk (TxType.deposit (-1)) 1 1)
    TxError.negativeAmount [some (Tx.mk (TxType.deposit 10000) 2 7)] rfl

/-! ### The Amount text conversions

The default build's `Amount` implementation (`rust_decimal`'s parse/format,
used by `engine.rs`'s `round_dp` build) is not part of the sources; the
conversions are modelled from the spec below. -/

/-- The ten decimal digit characters. -/
def digitChars : List Char := ['0', '1', '2', '3', '4', '5', '6', '7', '8', '9']

/-- Is this character a decimal digit? -/
def isDigitCh (c : Char) : Bool := decide (c ∈ digitChars)

/-- Numeric value of a digit character. -/
def digitVal (c : Char) : Nat := c.toNat - 48

/-- Digit character of a value below ten. -/
def digitChar (n : Nat) : Char :=
  match n with
  | 0 => '0' | 1 => '1' | 2 => '2' | 3 => '3' | 4 => '4'
  | 5 => '5' | 6 => '6' | 7 => '7' | 8 => '8' | _ => '9'

/-- Value of a least-significant-digit-first character list. -/
def valRev : List Char → Nat
  | [] => 0
  | c :: cs => digitVal c + 10 * valRev cs

/-- Value of a most-significant-digit-first character list. -/
def digitsVal (l : List Char) : Nat := valRev l.reverse

/-- Least-significant-first decimal digits of a number, with explicit fuel
(structural recursion, so that concrete values reduce). The fuel is never
exhausted when it exceeds the number. -/
def natDigitsRevFuel : Nat → Nat → List Char
  | 0, _ => []
  | fuel + 1, n =>
      if n < 10 then [digitChar n]
      else digitChar (n % 10) :: natDigitsRevFuel fuel (n / 10)

/-- Least-significant-first decimal digits of a number. -/
def natDigitsRev (n : Nat) : List Char := natDigitsRevFuel (n + 1) n

/-- Decimal rendering of a number, most significant digit first. -/
def natStr (n : Nat) : List Char := (natDigitsRev n).reverse

/-- Split a character list at its first dot. -/
def splitDot : List Char → List Char × Option (List Char)
  | [] => ([], none)
  | c :: rest =>
      if c = '.' then ([], some rest)
      else
        let p := splitDot rest
        (c :: p.1, p.2)

/-- Modelled from the spec: missing from the sources is the default build's
decimal type behind `parse`; the spec's "conversion from external decimal
text must round to 4 digits" with a deterministic rounding, here round half
up. Scale a fractional-digit list to exactly four digits. -/
def fracTo4 (f : List Char) : Nat :=
  if f.length ≤ 4 then digitsVal f * 10 ^ (4 - f.length)
  else (digitsVal f + 10 ^ (f.length - 4) / 2) / 10 ^ (f.length - 4)

/-- Modelled from the spec: missing from the sources is the default build's
`parse(text) -> Amount` ("fails with InvalidAmount if the text is not a
valid non-negative decimal"); the result is the minor-unit (1/10000) count,
`none` the validation failure. The integer part must be a nonempty digit
string; an optional fractional digit string is scaled to 4 digits. -/
def Amount.parse (s : String) : Option Nat :=
  let p := splitDot s.data
  let fr := p.2.getD []
  if !p.1.isEmpty && p.1.all isDigitCh && fr.all isDigitCh then
    some (digitsVal p.1 * 10000 + fracTo4 fr)
  else none

/-- Modelled from the spec: missing from the sources is the default build's
`to_text(amount) -> String` ("always 4 fractional digits, no thousands
separators"); renders the minor-unit count as integer part, dot, and the
remainder zero-padded to width four. -/
def Amount.to_text (v : Nat) : String :=
  String.mk (natStr (v / 10000) ++ '.'
    :: (List.replicate (4 - (natStr (v % 10000)).length) '0' ++ natStr (v % 10000)))

/-- A canonically written natural number: nonempty, all digits, and no
leading zero unless the number is exactly "0". -/
def CanonicalNat (l : List Char) : Prop :=
  l ≠ [] ∧ (∀ c ∈ l, isDigitCh c = true) ∧ (l = ['0'] ∨ l.head? ≠ some '0')

/-- A valid non-negative decimal string with exactly 4 fractional digits:
canonical integer part, a dot, and exactly four digit characters. -/
def Valid4 (s : String) : Prop :=
  ∃ ip fp, s.data = ip ++ '.' :: fp ∧ CanonicalNat ip
    ∧ fp.length = 4 ∧ ∀ c ∈ fp, isDigitCh c = true

example : Amount.parse "3.1400" = some 31400 := by decide
example : Amount.to_text 31400 = "3.1400" := by decide
example : Amount.to_text 7 = "0.0007" := by decide
example : Amount.parse "-1.0000" = none := by decide

theorem natDigitsRevFuel_congr (f1 : Nat) : ∀ f2 n : Nat, n < f1 → n < f2 →
    natDigitsRevFuel f1 n = natDigitsRevFuel f2 n := by
  induction f1 with
  | zero => omega
  | succ f ih =>
      intro f2 n h1 h2
      cases f2 with
      | zero => omega
      | succ f2' =>
          simp only [natDigitsRevFuel]
          by_cases h : n < 10
          · simp [h]
          · simp only [if_neg h]
            rw [ih f2' (n / 10) (by omega) (by omega)]

theorem natDigitsRev_eq (n : Nat) :
    natDigitsRev n
      = if n < 10 then [digitChar n]
        else digitChar (n % 10) :: natDigitsRev (n / 10) := by
  simp only [natDigitsRev, natDigitsRevFuel]
  by_cases h : n < 10
  · simp [h]
  · simp only [if_neg h]
    rw [natDigitsRevFuel_congr n (n / 10 + 1) (n / 10) (by omega) (by omega)]
    simp only [natDigitsRevFuel]

theorem digitChar_digitVal (c : Char) (h : isDigitCh c = true) :
    digitChar (digitVal c) = c := by
  have hc : c ∈ digitChars := of_decide_eq_true h
  simp [digitChars] at hc
  rcases hc with rfl | rfl | rfl | rfl | rfl | rfl | rfl | rfl | rfl | rfl <;> rfl

theorem digitVal_lt_ten (c : Char) (h : isDigitCh c = true) : digitVal c < 10 := by
  have hc : c ∈ digitChars := of_decide_eq_true h
  simp [digitChars] at hc
  rcases hc with rfl | rfl | rfl | rfl | rfl | rfl | rfl | rfl | rfl | rfl <;> decide

theorem digitVal_pos (c : Char) (h : isDigitCh c = true) (h0 : c ≠ '0') :
    1 ≤ digitVal c := by
  have hc : c ∈ digitChars := of_decide_eq_true h
  simp [digitChars] at hc
  rcases hc with rfl | rfl | rfl | rfl | rfl | rfl | rfl | rfl | rfl | rfl
  · exact absurd rfl h0
  all_goals decide

theorem valRev_pos (l : List Char) (hd : ∀ c ∈ l, isDigitCh c = true)
    (hne : l ≠ []) (hlast : l.getLast? ≠ some '0') : 1 ≤ valRev l := by
  induction l with
  | nil => exact absurd rfl hne
  | cons c rest ih =>
      cases rest with
      | nil =>
          simp only [List.getLast?_singleton] at hlast
          have h0 : c ≠ '0' := fun hh => hlast (by rw [hh])
          have := digitVal_pos c (hd c (List.mem_cons_self c [])) h0
          simp only [valRev]
          omega
      | cons c2 rest2 =>
          have hlast2 : (c2 :: rest2).getLast? ≠ some '0' := by
            rwa [List.getLast?_cons_cons] at hlast
          have := ih (fun x hx => hd x (List.mem_cons_of_mem _ hx)) (by simp) hlast2
          have hv : valRev (c :: c2 :: rest2)
              = digitVal c + 10 * valRev (c2 :: rest2) := rfl
          rw [hv]
          omega

theorem valRev_lt (l : List Char) (hd : ∀ c ∈ l, isDigitCh c = true) :
    valRev l < 10 ^ l.length := by
  induction l with
  | nil => simp [valRev]
  | cons c rest ih =>
      have h1 := digitVal_lt_ten c (hd c (List.mem_cons_self c rest))
      have h2 := ih (fun x hx => hd x (List.mem_cons_of_mem _ hx))
      have h3 : 10 ^ (c :: rest).length = 10 * 10 ^ rest.length := by
        simp [List.length_cons, pow_succ]
        ring
      simp only [valRev]
      omega

/-- Core rendering round-trip, least significant digit first: rendering the
value of a digit list whose most significant digit is not zero gives the
list back. -/
theorem natDigitsRev_valRev (l : List Char) (hd : ∀ c ∈ l, isDigitCh c = true)
    (hne : l ≠ []) (hlast : l.getLast? ≠ some '0' ∨ l = ['0']) :
    natDigitsRev (valRev l) = l := by
  induction l with
  | nil => exact absurd rfl hne
  | cons c rest ih =>
      have hc := hd c (List.mem_cons_self c rest)
      have hc10 := digitVal_lt_ten c hc
      cases rest with
      | nil =>
          have hv : valRev [c] = digitVal c := by simp [valRev]
          rw [hv, natDigitsRev_eq, if_pos hc10, digitChar_digitVal c hc]
      | cons c2 rest2 =>
          have hlast2 : (c2 :: rest2).getLast? ≠ some '0' := by
            rcases hlast with h | h
            · rwa [List.getLast?_cons_cons] at h
            · exact absurd h (by simp)
          have hd2 : ∀ x ∈ c2 :: rest2, isDigitCh x = true :=
            fun x hx => hd x (List.mem_cons_of_mem _ hx)
          have hpos := valRev_pos (c2 :: rest2) hd2 (by simp) hlast2
          have hih := ih hd2 (by simp) (Or.inl hlast2)
          have hv : valRev (c :: c2 :: rest2) = digitVal c + 10 * valRev (c2 :: rest2) := rfl
          rw [hv, natDigitsRev_eq, if_neg (by omega)]
          have hmod : (digitVal c + 10 * valRev (c2 :: rest2)) % 10 = digitVal c := by
            omega
          have hdiv : (digitVal c + 10 * valRev (c2 :: rest2)) / 10
              = valRev (c2 :: rest2) := by omega
          rw [hmod, hdiv, digitChar_digitVal c hc, hih]

theorem valRev_append_replicate_zero (l : List Char) (k : Nat) :
    valRev (l ++ List.replicate k '0') = valRev l := by
  induction l with
  | nil =>
      simp only [List.nil_append]
      induction k with
      | zero => rfl
      | succ k2 ih =>
          rw [List.replicate_succ]
          have hv : valRev ('0' :: List.replicate k2 '0')
              = digitVal '0' + 10 * valRev (List.replicate k2 '0') := rfl
          rw [hv, ih]
          decide
  | cons c rest ih =>
      have hv : valRev (c :: (rest ++ List.replicate k '0'))
          = digitVal c + 10 * valRev (rest ++ List.replicate k '0') := rfl
      rw [List.cons_append, hv, ih]
      rfl

theorem exists_strip_zeros (l : List Char) :
    ∃ k l2, l = List.replicate k '0' ++ l2 ∧ l2.head? ≠ some '0' := by
  induction l with
  | nil => exact ⟨0, [], rfl, by simp⟩
  | cons c rest ih =>
      by_cases hc : c = '0'
      · obtain ⟨k, l2, hl, hh⟩ := ih
        subst hc
        exact ⟨k + 1, l2, by simp [List.replicate_succ, hl], hh⟩
      · exact ⟨0, c :: rest, rfl, by simp [hc]⟩

theorem splitDot_append (ip fp : List Char) (h : '.' ∉ ip) :
    splitDot (ip ++ '.' :: fp) = (ip, some fp) := by
  induction ip with
  | nil => simp [splitDot]
  | cons c rest ih =>
      have hc : ¬ c = '.' := fun hh => h (List.mem_cons.mpr (Or.inl hh.symm))
      have h2 : '.' ∉ rest := fun hh => h (List.mem_cons_of_mem _ hh)
      simp [splitDot, hc, ih h2]

/-- Rendering the canonical decimal text of the value of a canonical digit
list gives the list back. -/
theorem natStr_digitsVal (ip : List Char) (h : CanonicalNat ip) :
    natStr (digitsVal ip) = ip := by
  obtain ⟨hne, hd, hz⟩ := h
  rcases hz with hz | hz
  · subst hz
    decide
  · have hne2 : ip.reverse ≠ [] := by simpa using hne
    have hlast : ip.reverse.getLast? ≠ some '0' := by
      rw [List.getLast?_reverse]
      exact hz
    have hd2 : ∀ c ∈ ip.reverse, isDigitCh c = true := fun c hc =>
      hd c (List.mem_reverse.mp hc)
    have hmain := natDigitsRev_valRev ip.reverse hd2 hne2 (Or.inl hlast)
    simp only [natStr, digitsVal]
    rw [hmain, List.reverse_reverse]

/-- Zero-padding the rendering of the value of a four-digit list back to
width four gives the list back. -/
theorem frac_render (fp : List Char) (hlen : fp.length = 4)
    (hfp : ∀ c ∈ fp, isDigitCh c = true) :
    List.replicate (4 - (natStr (digitsVal fp)).length) '0'
      ++ natStr (digitsVal fp) = fp := by
  obtain ⟨k, fp2, hdec, hh⟩ := exists_strip_zeros fp
  have hval : digitsVal fp = valRev fp2.reverse := by
    rw [hdec]
    simp only [digitsVal, List.reverse_append, List.reverse_replicate]
    exact valRev_append_replicate_zero fp2.reverse k
  have hlen3 : k + fp2.length = 4 := by
    rw [hdec] at hlen
    simpa using hlen
  by_cases hemp : fp2 = []
  · subst hemp
    simp only [List.append_nil] at hdec
    simp only [List.length_nil] at hlen3
    have hk : k = 4 := by omega
    subst hk
    rw [hval, hdec]
    decide
  · have hne2 : fp2.reverse ≠ [] := by simpa using hemp
    have hlast : fp2.reverse.getLast? ≠ some '0' := by
      rw [List.getLast?_reverse]
      exact hh
    have hd2 : ∀ c ∈ fp2.reverse, isDigitCh c = true := fun c hc =>
      hfp c (by
        rw [hdec]
        exact List.mem_append_right _ (List.mem_reverse.mp hc))
    have hmain := natDigitsRev_valRev fp2.reverse hd2 hne2 (Or.inl hlast)
    have hstr : natStr (digitsVal fp) = fp2 := by
      rw [hval]
      simp only [natStr]
      rw [hmain, List.reverse_reverse]
    rw [hstr, hdec]
    have h4 : 4 - fp2.length = k := by omega
    rw [h4]

/-- C9: for every valid non-negative decimal string with a canonical integer
part and exactly four fractional digits, parsing to a minor-unit amount and
rendering back yields the original string. -/
theorem C9_parse_to_text_round_trip (s : String) (h : Valid4 s) :
    ∃ v, Amount.parse s = some v ∧ Amount.to_text v = s := by
  obtain ⟨ip, fp, hs, hip, hlen, hfp⟩ := h
  have hnodot : '.' ∉ ip := fun hmem => by
    have := hip.2.1 '.' hmem
    simp [isDigitCh, digitChars] at this
  have hsplit : splitDot s.data = (ip, some fp) := by
    rw [hs]
    exact splitDot_append ip fp hnodot
  have hc1 : ip.isEmpty = false := by
    cases hipe : ip with
    | nil => exact absurd hipe hip.1
    | cons c rest => rfl
  have hc2 : ip.all isDigitCh = true := List.all_eq_true.mpr (hip.2.1)
  have hc3 : fp.all isDigitCh = true := List.all_eq_true.mpr hfp
  have hfrac : fracTo4 fp = digitsVal fp := by
    simp [fracTo4, hlen]
  have hparse : Amount.parse s = some (digitsVal ip * 10000 + digitsVal fp) := by
    simp only [Amount.parse, hsplit, hc1, hc2, hc3, Option.getD_some, Bool.not_false,
      Bool.and_self, Bool.and_true, Bool.true_and, if_pos, hfrac]
  refine ⟨digitsVal ip * 10000 + digitsVal fp, hparse, ?_⟩
  have hblt : digitsVal fp < 10000 := by
    have := valRev_lt fp.reverse (fun c hc => hfp c (List.mem_reverse.mp hc))
    rw [List.length_reverse, hlen] at this
    simpa [digitsVal] using this
  have hdiv : (digitsVal ip * 10000 + digitsVal fp) / 10000 = digitsVal ip := by
    omega
  have hmod : (digitsVal ip * 10000 + digitsVal fp) % 10000 = digitsVal fp := by
    omega
  simp only [Amount.to_text, hdiv, hmod, natStr_digitsVal ip hip,
    frac_render fp hlen hfp]
  rw [← hs]

theorem C9_witness :
    ∃ v, Amount.parse "3.1400" = some v ∧ Amount.to_text v = "3.1400" :=
  C9_parse_to_text_round_trip "3.1400"
    ⟨['3'], ['1', '4', '0', '0'], by decide,
      ⟨by decide, by decide, by decide⟩, by decide, by decide⟩

end TxFun
